import Mathlib

/-!
Verification of the Pysis ISIS cube reader (`pysis/constants.py`,
`pysis/cubefile.py`) against its natural-language specification.

The pixel payload of a cube is modelled as a list of already-decoded
elements (decoding the fixed-width byte encoding of one element is a
bijection fixed by the resolved dtype, so byte-level reads are faithfully
represented as element-level reads).  A decoded 3-D array is modelled as a
total function `Nat → Nat → Nat → α` from (band, line, sample) indices;
positions never written hold the ambient default value, mirroring
`np.empty`.  Machine floats appearing in the special-pixel registry are
exact values: every sentinel bit pattern in `constants.py` decodes to an
integer (for `>f4`, `0xFF7FFFFA..0xFF7FFFFF` are `-(2^24-6)*2^104` down to
`-(2^24-1)*2^104`; for `>f8`, `0xFFEFFFFFFFFFFFFA..FF` are
`-(2^53-6)*2^971` down to `-(2^53-1)*2^971`; the `Max` entries are the
largest finite values `(2^24-1)*2^104` and `(2^53-1)*2^971`), so the
registry is embedded over `Int` with those exact values.
-/

/-- The six pixel encodings that appear in the `SPECIAL_PIXELS` registry of
`pysis/constants.py`. -/
inductive PixelEncoding
  | UnsignedByte
  | UnsignedWord
  | SignedWord
  | SignedInteger
  | Real
  | Double
deriving DecidableEq

/-- One entry of the special-pixel registry: the valid-range bounds and the
five sentinel values, as exact integers. -/
structure SpecialValueSet where
  Min : Int
  Null : Int
  Lrs : Int
  Lis : Int
  His : Int
  Hrs : Int
  Max : Int
deriving DecidableEq

/-- `SPECIAL_PIXELS` from `pysis/constants.py` lines 12-67.  Integer
encodings carry their literal values; the `Real`/`Double` rows carry the
exact values of the big-endian bit patterns built by `_make_num` (see the
module comment). -/
def SPECIAL_PIXELS : PixelEncoding → SpecialValueSet
  | .UnsignedByte => ⟨1, 0, 0, 0, 255, 255, 254⟩
  | .UnsignedWord => ⟨3, 0, 1, 2, 65534, 65535, 65523⟩
  | .SignedWord => ⟨-32763, -32768, -32767, -32766, -32765, -32764, 32767⟩
  | .SignedInteger => ⟨-8388608, -8388613, -8388612, -8388611, -8388610, -8388609, 2147483647⟩
  | .Real =>
      -- Min .. Hrs are -(2^24-6)*2^104 .. -(2^24-1)*2^104; Max is (2^24-1)*2^104.
      ⟨-340282245226480841553352063748260495360,
       -340282265508890445205022487695511781376,
       -340282285791300048856692911642763067392,
       -340282306073709652508363335590014353408,
       -340282326356119256160033759537265639424,
       -340282346638528859811704183484516925440,
       340282346638528859811704183484516925440⟩
  | .Double =>
      -- Min .. Hrs are -(2^53-6)*2^971 .. -(2^53-1)*2^971; Max is (2^53-1)*2^971.
      ⟨-179769313486231471022511946995713773979434915683916693226354455030280185652666416899994965184563588923642184321729327997111979117264701984146568127023854480027459996334980266075961842536105503067189796290305774809636746009707023281625285803288603903832034403801936847812692833393117217763325642508983628464128,
       -179769313486231490980915042342911890543162046052302353900867059384855600678138841272113883874204246773221839248086338890536447559189654423870948010959791087419177979183294469276018572046962268242567010733935646636170313455146263214933390354497307792720587088282378422883901902150677634186910594812423727742976,
       -179769313486231510939318137690110007106889176420688014575379663739431015703611265644232802563844904622801494174443349783960916001114606863595327894895727694810895962031608672476075301557819033417944225177565518462703880900585503148241494905706011681609139772762819997955110970908238050610495547115863827021824,
       -179769313486231530897721233037308123670616306789073675249892268094006430729083690016351721253485562472381149100800360677385384443039559303319707778831664302202613944879922875676132031068675798593321439621195390289237448346024743081549599456914715570497692457243261573026320039665798467034080499419303926300672,
       -179769313486231550856124328384506240234343437157459335924404872448581845754556114388470639943126220321960804027157371570809852884964511743044087662767600909594331927728237078876188760579532563768698654064825262115771015791463983014857704008123419459386245141723703148097529108423358883457665451722744025579520,
       -179769313486231570814527423731704356798070567525844996598917476803157260780028538760589558632766878171540458953514382464234321326889464182768467546703537516986049910576551282076245490090389328944075868508455133942304583236903222948165808559332123348274797826204144723168738177180919299881250404026184124858368,
       179769313486231570814527423731704356798070567525844996598917476803157260780028538760589558632766878171540458953514382464234321326889464182768467546703537516986049910576551282076245490090389328944075868508455133942304583236903222948165808559332123348274797826204144723168738177180919299881250404026184124858368⟩

/-- The string-keyed view of the registry (the Python dict is keyed by the
pixel-type name). -/
def SPECIAL_PIXELS_byName : String → Option SpecialValueSet
  | "UnsignedByte" => some (SPECIAL_PIXELS .UnsignedByte)
  | "UnsignedWord" => some (SPECIAL_PIXELS .UnsignedWord)
  | "SignedWord" => some (SPECIAL_PIXELS .SignedWord)
  | "SignedInteger" => some (SPECIAL_PIXELS .SignedInteger)
  | "Real" => some (SPECIAL_PIXELS .Real)
  | "Double" => some (SPECIAL_PIXELS .Double)
  | _ => none

/-- Result domain of `apply_numpy_specials`: a NumPy float that is either a
special value (`nan`, `-inf`, `inf`) or an ordinary finite value. -/
inductive NpVal
  | nan
  | ninf
  | inf
  | val (x : Int)
deriving DecidableEq

/-- Pointwise embedding of `CubeFile.apply_numpy_specials`
(`cubefile.py` lines 127-129).  The three masked assignments run in
sequence on the float copy:
`data[data == Null] = nan`, then `data[data < Min] = NINF`, then
`data[data > Max] = inf`.  An element set to `nan` by the first step no
longer satisfies the later comparisons (IEEE comparisons with NaN are
false), and `NINF > Max` is false, so the composite per-element effect is
exactly this if-chain with the `Null` test first. -/
def apply_numpy_specials (sp : SpecialValueSet) (x : Int) : NpVal :=
  if x = sp.Null then .nan
  else if x < sp.Min then .ninf
  else if x > sp.Max then .inf
  else .val x

/-- Embedding of `CubeFile.apply_scaling` with `copy=True`
(`cubefile.py` line 80): `self.multiplier * self.data + self.base`,
elementwise over the array. -/
def apply_scaling (multiplier base : ℚ) (data : List ℚ) : List ℚ :=
  data.map (fun v => multiplier * v + base)

/-- The `data *= self.multiplier` step of `apply_scaling` with
`copy=False` (`cubefile.py` lines 82-83), skipped when the multiplier
is 1. -/
def apply_scaling_mult (m : ℚ) (data : List ℚ) : List ℚ :=
  if m ≠ 1 then data.map (fun v => v * m) else data

/-- The `data += self.base` step of `apply_scaling` with `copy=False`
(`cubefile.py` lines 85-86), skipped when the base is 0. -/
def apply_scaling_add (b : ℚ) (data : List ℚ) : List ℚ :=
  if b ≠ 0 then data.map (fun v => v + b) else data

/-- Embedding of `CubeFile.apply_scaling` with `copy=False`
(`cubefile.py` lines 82-88): the two conditional in-place updates run in
sequence. -/
def apply_scaling_inplace (multiplier base : ℚ) (data : List ℚ) : List ℚ :=
  apply_scaling_add base (apply_scaling_mult multiplier data)

/-- Validity of one pixel value: `Min ≤ value ≤ Max`
(`CubeFile.specials_mask`, `cubefile.py` lines 144-145, computes this
mask elementwise).  Pixel values are modelled over `ℚ` so that the
stretch division of `get_image_array` is exact. -/
def isValid (sp : SpecialValueSet) (v : ℚ) : Prop :=
  (sp.Min : ℚ) ≤ v ∧ v ≤ (sp.Max : ℚ)

instance isValid_decidable (sp : SpecialValueSet) (v : ℚ) : Decidable (isValid sp v) :=
  inferInstanceAs (Decidable (And _ _))

/-- Embedding of `CubeFile.specials_mask` (`cubefile.py` lines 133-146):
elementwise `data >= Min` conjoined with `data <= Max`. -/
def specials_mask (sp : SpecialValueSet) (data : List ℚ) : List Bool :=
  data.map (fun v => decide (isValid sp v))

/-- `ndarray.min()` over a list of values (NumPy raises on an empty
selection; the `[]` case is junk and every theorem using `listMin`
assumes the selection is nonempty). -/
def listMin : List ℚ → ℚ
  | [] => 0
  | x :: t => t.foldl min x

/-- `ndarray.max()` over a list of values, with the same empty-case
convention as `listMin`. -/
def listMax : List ℚ → ℚ
  | [] => 0
  | x :: t => t.foldl max x

/-- `data[specials_mask].min()` of `get_image_array`: the masked selection
`data[mask]` holds exactly the values of `data` (in order) that satisfy
the validity mask, i.e. `data.filter (isValid sp)`. -/
def validMin (sp : SpecialValueSet) (data : List ℚ) : ℚ :=
  listMin (data.filter (fun v => decide (isValid sp v)))

/-- `data[specials_mask].max()` computed after the in-place subtraction
`data[specials_mask] -= data[specials_mask].min()`: the masked selection
at that point holds the valid values of the original array shifted down
by `validMin`. -/
def validMaxAfter (sp : SpecialValueSet) (data : List ℚ) : ℚ :=
  listMax ((data.filter (fun v => decide (isValid sp v))).map (fun v => v - validMin sp data))

/-- Per-element effect of the two fancy-indexed in-place updates of
`get_image_array` (`cubefile.py` lines 173-174): masked (valid)
positions become `(v - vmin) * (255 / maxAfter)` (the scalar
`255 / data[mask].max()` is computed once, after the subtraction),
unmasked positions keep their original value. -/
def stretchValid (sp : SpecialValueSet) (vmin maxAfter v : ℚ) : ℚ :=
  if isValid sp v then (v - vmin) * (255 / maxAfter) else v

/-- `data[data == self.specials['His']] = 255` (`cubefile.py` line 176),
applied to the current (post-stretch) value of each element. -/
def stretchHis (sp : SpecialValueSet) (v : ℚ) : ℚ :=
  if v = (sp.His : ℚ) then 255 else v

/-- `data[data == self.specials['Hrs']] = 255` (`cubefile.py` line 177),
applied after the `His` assignment. -/
def stretchHrs (sp : SpecialValueSet) (v : ℚ) : ℚ :=
  if v = (sp.Hrs : ℚ) then 255 else v

/-- The composite per-element function of `get_image_array` for one
original value, given the two aggregates of the valid subset. -/
def stretchPoint (sp : SpecialValueSet) (vmin maxAfter v : ℚ) : ℚ :=
  stretchHrs sp (stretchHis sp (stretchValid sp vmin maxAfter v))

/-- Embedding of `CubeFile.get_image_array` (`cubefile.py` lines
148-179) up to (but not including) the final `astype(np.uint8)` cast.
The mask is computed once from the original values, so whether an index
is masked depends only on its value; the two fancy-indexed in-place
updates (`data[mask] -= min`, `data[mask] *= 255 / max-after`) and the
two whole-array sentinel assignments (`data[data == His] = 255`,
`data[data == Hrs] = 255`) therefore compose to `stretchPoint` applied
to each original value. -/
def get_image_array (sp : SpecialValueSet) (data : List ℚ) : List ℚ :=
  data.map (stretchPoint sp (validMin sp data) (validMaxAfter sp data))

/-- The label fields of the `IsisCube/Core` group that `CubeFile` reads
(`cubefile.py` lines 181-250).  The label itself is an external,
already-parsed mapping; this structure records exactly the fields the
core consumes.  `format`, `pixelType` and `byteOrder` are kept as raw
strings because unrecognized tags are error cases of the claims. -/
structure CoreLabel where
  bands : Nat
  lines : Nat
  samples : Nat
  format : String
  pixelType : String
  byteOrder : String
  tileLines : Nat
  tileSamples : Nat
  startByte : Nat
  base : ℚ
  multiplier : ℚ

/-- `CubeFile.start_byte` (`cubefile.py` lines 237-240): the label's
1-indexed `StartByte` minus one. -/
def start_byte (c : CoreLabel) : Nat :=
  c.startByte - 1

/-- `CubeFile.size` (`cubefile.py` lines 247-250): total number of
pixels, `bands * lines * samples`. -/
def size (c : CoreLabel) : Nat :=
  c.bands * c.lines * c.samples

/-- `BYTE_ORDERS` from `constants.py` lines 82-86, as a partial lookup
(a missing key is the `KeyError` / `UnknownByteOrder` case). -/
def BYTE_ORDERS : String → Option String
  | "NoByteOrder" => some "="
  | "Lsb" => some "<"
  | "Msb" => some ">"
  | _ => none

/-- `PIXEL_TYPES` from `constants.py` lines 70-79 as the intended
name-to-dtype table (a missing key is the `KeyError` /
`UnsupportedEncoding` case).  The construction-time `np` name bug of that
module is modelled separately by `PIXEL_TYPES_init`. -/
def PIXEL_TYPES : String → Option String
  | "UnsignedByte" => some "uint8"
  | "SignedByte" => some "int8"
  | "UnsignedWord" => some "uint16"
  | "SignedWord" => some "int16"
  | "UnsignedInteger" => some "uint32"
  | "SignedInteger" => some "int32"
  | "Real" => some "float32"
  | "Double" => some "float64"
  | _ => none

/-- The failure modes of resolve/decode named by the specification.  In
the Python source they surface as distinct raised exceptions:
lookup of an unknown pixel type or byte-order tag raises `KeyError`
(`cubefile.py` lines 218-219), an unknown format raises the explicit
`Exception` of `_parse_data` line 266, and a short read makes the
subsequent `reshape` raise `ValueError`. -/
inductive DecodeError
  | UnsupportedEncoding
  | UnknownByteOrder
  | UnsupportedLayout
  | TruncatedData
deriving DecidableEq

/-- `CubeFile.dtype` (`cubefile.py` lines 214-220): resolve the byte
order first (line 218), then the pixel type (line 219); the result pairs
the numpy dtype name with the byte-order character
(`pixel_type.newbyteorder(byte_order)`). -/
def dtype (c : CoreLabel) : Except DecodeError (String × String) :=
  match BYTE_ORDERS c.byteOrder with
  | none => .error .UnknownByteOrder
  | some bo =>
      match PIXEL_TYPES c.pixelType with
      | none => .error .UnsupportedEncoding
      | some pt => .ok (pt, bo)

/-- `np.fromfile(stream, dtype, n)` at cursor `pos`, followed by the
reshape that requires all `n` elements: `fromfile` returns
`min(n, remaining)` elements without raising, and the `reshape` of the
caller succeeds exactly when all `n` were available (otherwise numpy
raises `ValueError`, the `TruncatedData` case). -/
def readElems {α : Type} (stream : List α) (pos n : Nat) : Except DecodeError (List α) :=
  if n ≤ stream.length - pos then .ok ((stream.drop pos).take n) else .error .TruncatedData

/-- Row-major (C-order) indexing of a flat element run reshaped to
`(bands, L, S)`: element `(b, l, s)` is flat element `b*(L*S) + l*S + s`.
Out-of-range indices yield the ambient default (numpy would raise; no
claim touches them). -/
def reshape3 {α : Type} [Inhabited α] (L S : Nat) (flat : List α) : Nat → Nat → Nat → α :=
  fun b l s => flat.getD (b * (L * S) + l * S + s) default

/-- `CubeFile._parse_band_sequential_data` (`cubefile.py` lines
268-271): resolve `self.dtype`, read `self.size` elements from the
cursor, reshape to `self.shape`.  The returned `Nat` is the stream
cursor after the read. -/
def parse_band_sequential_data {α : Type} [Inhabited α] (c : CoreLabel) (stream : List α)
    (pos : Nat) : Except DecodeError ((Nat → Nat → Nat → α) × Nat) :=
  match dtype c with
  | .error e => .error e
  | .ok _ =>
      match readElems stream pos (size c) with
      | .error e => .error e
      | .ok flat => .ok (reshape3 c.lines c.samples flat, pos + size c)

/-- Python `range(0, stop, step)` for a positive step: the multiples of
`step` below `stop`, i.e. `ceil(stop/step)` values. -/
def rangeStep (stop step : Nat) : List Nat :=
  (List.range ((stop + step - 1) / step)).map (fun i => i * step)

/-- The tile origins `(band, line, sample)` visited by the three nested
loops of `_parse_tile_data` (`cubefile.py` lines 285-287): band
outermost, then tile-row origins `range(0, lines, tile_lines)`, then
tile-column origins `range(0, samples, tile_samples)` innermost. -/
def tileOrigins (c : CoreLabel) : List (Nat × Nat × Nat) :=
  (List.range c.bands).flatMap (fun b =>
    (rangeStep c.lines c.tileLines).flatMap (fun line =>
      (rangeStep c.samples c.tileSamples).map (fun sample => (b, line, sample))))

/-- The assignment `chunk[:] = tile[:chunk_lines, :chunk_samples]`
(`cubefile.py` lines 290-296): inside the clipped window anchored at
`(band, line, sample)` the output takes tile element
`(l - line, s - sample)` of the freshly read `(tileLines, tileSamples)`
buffer (given flat, row-major); everywhere else the array is
unchanged. -/
def writeTile {α : Type} [Inhabited α] (d : Nat → Nat → Nat → α) (band line sample : Nat)
    (chunkLines chunkSamples : Nat) (tile : List α) (tileSamples : Nat) :
    Nat → Nat → Nat → α :=
  fun b2 l2 s2 =>
    if b2 = band ∧ line ≤ l2 ∧ l2 < line + chunkLines ∧ sample ≤ s2 ∧ s2 < sample + chunkSamples
    then tile.getD ((l2 - line) * tileSamples + (s2 - sample)) default
    else d b2 l2 s2

/-- The loop body of `_parse_tile_data` over the remaining tile origins:
read a full `tile_lines*tile_samples` run at the cursor, write the
clipped chunk (`chunk_lines = min(tile_lines, lines - line)`,
`chunk_samples = min(tile_samples, samples - sample)`, the shape of the
numpy slice `band[line:line_end, sample:sample_end]`), advance the
cursor, continue. -/
def parseTilesLoop {α : Type} [Inhabited α] (c : CoreLabel) (stream : List α) :
    List (Nat × Nat × Nat) → ((Nat → Nat → Nat → α) × Nat) →
    Except DecodeError ((Nat → Nat → Nat → α) × Nat)
  | [], st => .ok st
  | (band, line, sample) :: rest, (d, pos) =>
      match readElems stream pos (c.tileLines * c.tileSamples) with
      | .error e => .error e
      | .ok tile =>
          parseTilesLoop c stream rest
            (writeTile d band line sample (min c.tileLines (c.lines - line))
              (min c.tileSamples (c.samples - sample)) tile c.tileSamples,
             pos + c.tileLines * c.tileSamples)

/-- `CubeFile._parse_tile_data` (`cubefile.py` lines 273-298): resolve
`self.dtype`, allocate the output with `np.empty` (modelled as the
all-`default` array), and run the tile loop from the cursor. -/
def parse_tile_data {α : Type} [Inhabited α] (c : CoreLabel) (stream : List α) (pos : Nat) :
    Except DecodeError ((Nat → Nat → Nat → α) × Nat) :=
  match dtype c with
  | .error e => .error e
  | .ok _ => parseTilesLoop c stream (tileOrigins c) ((fun _ _ _ => default), pos)

/-- `CubeFile._parse_data` (`cubefile.py` lines 256-266): seek to
`self.start_byte`, dispatch on the format tag, raise on anything other
than the two known layouts. -/
def _parse_data {α : Type} [Inhabited α] (c : CoreLabel) (stream : List α) :
    Except DecodeError ((Nat → Nat → Nat → α) × Nat) :=
  if c.format = "BandSequential" then parse_band_sequential_data c stream (start_byte c)
  else if c.format = "Tile" then parse_tile_data c stream (start_byte c)
  else .error .UnsupportedLayout

/-- Re-serialization of a decoded `(bands, lines, samples)` array back
to its flat element run in the same row-major order (same element type
and byte order, so the element run determines the byte stream). -/
def serialize {α : Type} (c : CoreLabel) (d : Nat → Nat → Nat → α) : List α :=
  (List.range (size c)).map (fun k =>
    d (k / (c.lines * c.samples)) (k % (c.lines * c.samples) / c.samples) (k % c.samples))

/-- Number of tile rows per band: `len(range(0, lines, tile_lines))`. -/
def nTileRows (c : CoreLabel) : Nat :=
  (c.lines + c.tileLines - 1) / c.tileLines

/-- Number of tile columns per tile row:
`len(range(0, samples, tile_samples))`. -/
def nTileCols (c : CoreLabel) : Nat :=
  (c.samples + c.tileSamples - 1) / c.tileSamples

/-- The tile origin visited at (0-based) position `k` of the traversal:
band `k / (rows*cols)`, then row-major within the band. -/
def originOfIdx (c : CoreLabel) (k : Nat) : Nat × Nat × Nat :=
  (k / (nTileRows c * nTileCols c),
   (k % (nTileRows c * nTileCols c) / nTileCols c) * c.tileLines,
   (k % (nTileRows c * nTileCols c) % nTileCols c) * c.tileSamples)

/-- The clipped window written by the tile anchored at origin `o`:
exactly the index region assigned through `chunk[:]` for that tile. -/
def covers (c : CoreLabel) (o : Nat × Nat × Nat) (b l s : Nat) : Prop :=
  b = o.1 ∧ o.2.1 ≤ l ∧ l < o.2.1 + min c.tileLines (c.lines - o.2.1)
    ∧ o.2.2 ≤ s ∧ s < o.2.2 + min c.tileSamples (c.samples - o.2.2)

/-- Python-level error kinds needed for the attribute/name resolution
claims. -/
inductive PyErr
  | AttributeError
  | NameError
  | KeyError
deriving DecidableEq

/-- The attribute names that exist on a `CubeFile` instance: the class
attributes (methods and properties defined in the class body of
`cubefile.py`) and the instance attributes assigned in `__init__`.
`SPECIAL_PIXELS` is only a module-level import (line 9), never assigned
on the class or the instance. -/
def cubeFileAttrs : List String :=
  ["open", "__init__", "apply_scaling", "apply_numpy_specials", "specials_mask",
   "get_image_array", "bands", "lines", "samples", "tile_lines", "tile_samples",
   "format", "dtype", "specials", "base", "multiplier", "start_byte", "shape",
   "size", "_parse_label", "_parse_data", "_parse_band_sequential_data",
   "_parse_tile_data", "filename", "label", "data"]

/-- Python attribute lookup `self.<name>` on a `CubeFile` instance:
instance dict, then class dict, else `AttributeError`. -/
def cubeFileGetattr (name : String) : Except PyErr Unit :=
  if name ∈ cubeFileAttrs then .ok () else .error .AttributeError

/-- The `CubeFile.specials` property (`cubefile.py` lines 222-225):
evaluates `self.SPECIAL_PIXELS[pixel_type]`, i.e. first resolves the
attribute `SPECIAL_PIXELS` on `self`, then subscripts the registry with
the label's pixel-type name. -/
def CubeFile_specials (pixelType : String) : Except PyErr SpecialValueSet :=
  match cubeFileGetattr "SPECIAL_PIXELS" with
  | .error e => .error e
  | .ok _ =>
      match SPECIAL_PIXELS_byName pixelType with
      | some sp => .ok sp
      | none => .error .KeyError

/-- `CubeFile.apply_numpy_specials` as actually invoked: it reads
`self.specials` (three times) before returning; the first read decides
success. -/
def run_apply_numpy_specials (pixelType : String) (data : List Int) :
    Except PyErr (List NpVal) :=
  match CubeFile_specials pixelType with
  | .error e => .error e
  | .ok sp => .ok (data.map (apply_numpy_specials sp))

/-- `CubeFile.specials_mask` as actually invoked: reads `self.specials`
twice before returning. -/
def run_specials_mask (pixelType : String) (data : List ℚ) : Except PyErr (List Bool) :=
  match CubeFile_specials pixelType with
  | .error e => .error e
  | .ok sp => .ok (specials_mask sp data)

/-- `CubeFile.get_image_array` as actually invoked: its first statement
calls `self.specials_mask()`, which reads `self.specials`. -/
def run_get_image_array (pixelType : String) (data : List ℚ) : Except PyErr (List ℚ) :=
  match CubeFile_specials pixelType with
  | .error e => .error e
  | .ok sp => .ok (get_image_array sp data)

/-- The module-global names bound in `pysis/constants.py` before the
`PIXEL_TYPES = {...}` statement on line 70 executes: the import binds
`numpy` (line 4), and `__all__`, `_make_num`, `SPECIAL_PIXELS` are
assigned above it.  The name `np` is never bound in that module. -/
def constantsModuleNames : List String :=
  ["numpy", "__all__", "_make_num", "SPECIAL_PIXELS"]

/-- Python global-name resolution inside a module. -/
def lookupGlobal (env : List String) (n : String) : Except PyErr Unit :=
  if n ∈ env then .ok () else .error .NameError

/-- Execution of the `PIXEL_TYPES = {...}` statement of `constants.py`
lines 70-79: every value expression is `np.dtype(...)`, so the first
step resolves the global name `np`; only if that succeeds is the dict
built. -/
def PIXEL_TYPES_init : Except PyErr (String → Option String) :=
  match lookupGlobal constantsModuleNames "np" with
  | .error e => .error e
  | .ok _ => .ok PIXEL_TYPES

/-- Importing `pysis.constants` runs the module body, including the
`PIXEL_TYPES` construction. -/
def import_pysis_constants : Except PyErr Unit :=
  match PIXEL_TYPES_init with
  | .error e => .error e
  | .ok _ => .ok ()

/-- Importing `pysis.cubefile` first executes
`from .constants import PIXEL_TYPES, BYTE_ORDERS, SPECIAL_PIXELS`
(line 9), which imports `pysis.constants`. -/
def import_pysis_cubefile : Except PyErr Unit :=
  import_pysis_constants

/-- Resolving `CubeFile.dtype` in the live interpreter: the class only
exists if `pysis.cubefile` imported successfully, after which the
property body runs. -/
def dtype_run (c : CoreLabel) : Except PyErr (String × String) :=
  match import_pysis_cubefile with
  | .error e => .error e
  | .ok _ =>
      match dtype c with
      | .ok d2 => .ok d2
      | .error _ => .error .KeyError

/-- The flat position of the tile that covers pixel `(b, l, s)` in the
traversal order of `_parse_tile_data`: band outermost, then tile row
`l / tile_lines`, then tile column `s / tile_samples` innermost. -/
def tileIdx (c : CoreLabel) (b l s : Nat) : Nat :=
  b * (nTileRows c * nTileCols c)
    + (l / c.tileLines * nTileCols c + s / c.tileSamples)

-- Helper: congruence for `List.map` under a pointwise function equality.
theorem map_ext_list {α β : Type} (f g : α → β) (l : List α) (h : ∀ a, f a = g a) :
    l.map f = l.map g := by
  induction l with
  | nil => rfl
  | cons a t ih => simp only [List.map_cons, h a, ih]

-- Helper: `getD` through `map` at an in-range index.
theorem getD_map_of_lt {α β : Type} (f : α → β) (l : List α) (i : Nat)
    (h : i < l.length) (d : α) (e : β) : (l.map f).getD i e = f (l.getD i d) := by
  induction l generalizing i with
  | nil => exact absurd h (Nat.not_lt_zero i)
  | cons a t ih =>
    cases i with
    | zero => rfl
    | succ j => exact ih j (Nat.lt_of_succ_lt_succ h)

/-- C3 counterexample: for the `UnsignedByte` encoding the sentinels
collide: `Null = Lrs` (both 0) and `His = Hrs` (both 255), refuting "no
two of the five sentinels Null, Lrs, Lis, His, Hrs are equal to each
other" at that encoding. -/
theorem C3_sentinel_collision :
    (SPECIAL_PIXELS PixelEncoding.UnsignedByte).Null
        = (SPECIAL_PIXELS PixelEncoding.UnsignedByte).Lrs
      ∧ (SPECIAL_PIXELS PixelEncoding.UnsignedByte).His
        = (SPECIAL_PIXELS PixelEncoding.UnsignedByte).Hrs := by
  decide

/-- C3 (amended): for every encoding, `Min ≤ Max` and none of the five
sentinels lies in the closed interval `[Min, Max]`; the five sentinels are
pairwise distinct for every encoding except `UnsignedByte`, where exactly
`Null = Lrs = Lis` (all 0) and `His = Hrs` (both 255). -/
theorem C3_registry_amended (e : PixelEncoding) :
    ((SPECIAL_PIXELS e).Min ≤ (SPECIAL_PIXELS e).Max
      ∧ ((SPECIAL_PIXELS e).Null < (SPECIAL_PIXELS e).Min ∨ (SPECIAL_PIXELS e).Max < (SPECIAL_PIXELS e).Null)
      ∧ ((SPECIAL_PIXELS e).Lrs < (SPECIAL_PIXELS e).Min ∨ (SPECIAL_PIXELS e).Max < (SPECIAL_PIXELS e).Lrs)
      ∧ ((SPECIAL_PIXELS e).Lis < (SPECIAL_PIXELS e).Min ∨ (SPECIAL_PIXELS e).Max < (SPECIAL_PIXELS e).Lis)
      ∧ ((SPECIAL_PIXELS e).His < (SPECIAL_PIXELS e).Min ∨ (SPECIAL_PIXELS e).Max < (SPECIAL_PIXELS e).His)
      ∧ ((SPECIAL_PIXELS e).Hrs < (SPECIAL_PIXELS e).Min ∨ (SPECIAL_PIXELS e).Max < (SPECIAL_PIXELS e).Hrs))
    ∧ (e ≠ PixelEncoding.UnsignedByte →
        ((SPECIAL_PIXELS e).Null ≠ (SPECIAL_PIXELS e).Lrs
          ∧ (SPECIAL_PIXELS e).Null ≠ (SPECIAL_PIXELS e).Lis
          ∧ (SPECIAL_PIXELS e).Null ≠ (SPECIAL_PIXELS e).His
          ∧ (SPECIAL_PIXELS e).Null ≠ (SPECIAL_PIXELS e).Hrs
          ∧ (SPECIAL_PIXELS e).Lrs ≠ (SPECIAL_PIXELS e).Lis
          ∧ (SPECIAL_PIXELS e).Lrs ≠ (SPECIAL_PIXELS e).His
          ∧ (SPECIAL_PIXELS e).Lrs ≠ (SPECIAL_PIXELS e).Hrs
          ∧ (SPECIAL_PIXELS e).Lis ≠ (SPECIAL_PIXELS e).His
          ∧ (SPECIAL_PIXELS e).Lis ≠ (SPECIAL_PIXELS e).Hrs
          ∧ (SPECIAL_PIXELS e).His ≠ (SPECIAL_PIXELS e).Hrs))
    ∧ (e = PixelEncoding.UnsignedByte →
        ((SPECIAL_PIXELS e).Null = (SPECIAL_PIXELS e).Lrs
          ∧ (SPECIAL_PIXELS e).Lrs = (SPECIAL_PIXELS e).Lis
          ∧ (SPECIAL_PIXELS e).His = (SPECIAL_PIXELS e).Hrs
          ∧ (SPECIAL_PIXELS e).Null ≠ (SPECIAL_PIXELS e).His)) := by
  cases e <;> exact ⟨by decide, fun h => by first | decide | exact absurd rfl h,
    fun h => by first | decide | exact absurd h (by decide)⟩

/-- C3 amended-claim witness at concrete encodings: `SignedWord` has the
distinct sentinels, `UnsignedByte` has the stated collisions. -/
theorem C3_registry_amended_witness :
    (SPECIAL_PIXELS PixelEncoding.SignedWord).Null ≠ (SPECIAL_PIXELS PixelEncoding.SignedWord).Lrs
      ∧ (SPECIAL_PIXELS PixelEncoding.UnsignedByte).Null = (SPECIAL_PIXELS PixelEncoding.UnsignedByte).Lrs :=
  ⟨((C3_registry_amended PixelEncoding.SignedWord).2.1 (by decide)).1,
    ((C3_registry_amended PixelEncoding.UnsignedByte).2.2 rfl).1⟩

/-- C4: evaluating `apply_numpy_specials` at the `SignedWord` `His`
sentinel (-32765).  `His < Min` for this encoding, so the below-`Min` rule
fires and the code maps `His` to negative infinity, contradicting both the
claim and the function's own docstring table (`His ↦ inf`,
`cubefile.py` lines 106-115). -/
theorem C4_his_maps_to_ninf :
    apply_numpy_specials (SPECIAL_PIXELS PixelEncoding.SignedWord)
        (SPECIAL_PIXELS PixelEncoding.SignedWord).His = NpVal.ninf
      ∧ NpVal.ninf ≠ NpVal.inf := by
  decide

/-- C7: `apply_scaling` computes `multiplier * raw + base` elementwise;
the in-place variant agrees with the copying one; `multiplier=2, base=-1`
maps raw 10 to 19; and `multiplier=1, base=0` is the identity. -/
theorem C7_scaling :
    (∀ (m b : ℚ) (data : List ℚ) (i : Nat), i < data.length →
        (apply_scaling m b data).getD i 0 = m * data.getD i 0 + b)
      ∧ (∀ (m b : ℚ) (data : List ℚ), apply_scaling_inplace m b data = apply_scaling m b data)
      ∧ apply_scaling 2 (-1) [10] = [19]
      ∧ (∀ data : List ℚ, apply_scaling 1 0 data = data) := by
  refine ⟨fun m b data i hi => ?_, fun m b data => ?_, ?_, fun data => ?_⟩
  · exact getD_map_of_lt (fun v => m * v + b) data i hi 0 0
  · unfold apply_scaling_inplace apply_scaling_add apply_scaling_mult apply_scaling
    by_cases hb : b = 0
    · rw [if_neg (fun h => h hb)]
      by_cases hm : m = 1
      · rw [if_neg (fun h => h hm)]
        exact ((map_ext_list _ id data fun a => by rw [hm, hb]; simp).trans data.map_id).symm
      · rw [if_pos hm, hb]
        exact map_ext_list _ _ data fun a => by ring
    · rw [if_pos hb]
      by_cases hm : m = 1
      · rw [if_neg (fun h => h hm)]
        exact map_ext_list _ _ data fun a => by rw [hm]; ring
      · rw [if_pos hm, List.map_map]
        exact map_ext_list _ _ data fun a => by simp only [Function.comp_apply]; ring
  · simp only [apply_scaling, List.map_cons, List.map_nil, List.cons.injEq, and_true]
    norm_num
  · exact (map_ext_list _ id data fun a => by simp).trans data.map_id

/-- C7 witness: the pointwise scaling equation instantiated at
`multiplier=2, base=-1, data=[10], i=0`. -/
theorem C7_scaling_witness :
    (0 : Nat) < ([10] : List ℚ).length
      ∧ (apply_scaling 2 (-1) [10]).getD 0 0 = 2 * (([10] : List ℚ).getD 0 0) + (-1) :=
  ⟨by decide, C7_scaling.1 2 (-1) [10] 0 (by decide)⟩

/-- C9: `CubeFile.specials` evaluates `self.SPECIAL_PIXELS`, but
`SPECIAL_PIXELS` is only a module-level import, never a class or
instance attribute of `CubeFile`, so the attribute lookup fails with
`AttributeError` for every pixel type; consequently
`apply_numpy_specials`, `specials_mask` and `get_image_array` raise for
every input instead of returning a value. -/
theorem C9_specials_attribute_error :
    (∀ pixelType : String,
        CubeFile_specials pixelType = Except.error PyErr.AttributeError)
      ∧ (∀ (pixelType : String) (data : List Int),
          run_apply_numpy_specials pixelType data = Except.error PyErr.AttributeError)
      ∧ (∀ (pixelType : String) (data : List ℚ),
          run_specials_mask pixelType data = Except.error PyErr.AttributeError)
      ∧ (∀ (pixelType : String) (data : List ℚ),
          run_get_image_array pixelType data = Except.error PyErr.AttributeError) := by
  have hattr : cubeFileGetattr "SPECIAL_PIXELS" = Except.error PyErr.AttributeError := by
    have hmem : ("SPECIAL_PIXELS" ∈ cubeFileAttrs) = False := by decide
    unfold cubeFileGetattr
    rw [if_neg (fun h => hmem ▸ h)]
  have hspec : ∀ pixelType : String,
      CubeFile_specials pixelType = Except.error PyErr.AttributeError := by
    intro pt
    unfold CubeFile_specials
    rw [hattr]
  refine ⟨hspec, fun pt data => ?_, fun pt data => ?_, fun pt data => ?_⟩
  · unfold run_apply_numpy_specials
    rw [hspec pt]
  · unfold run_specials_mask
    rw [hspec pt]
  · unfold run_get_image_array
    rw [hspec pt]

/-- C10: the `PIXEL_TYPES` dict of `constants.py` is built from
`np.dtype(...)` expressions, but that module only binds the name
`numpy`, so executing the statement fails with `NameError`; importing
`pysis.cubefile` therefore fails, and resolving the element type through
`CubeFile.dtype` fails with the name-resolution error for every label,
never yielding a decode plan. -/
theorem C10_pixel_types_name_error :
    PIXEL_TYPES_init = Except.error PyErr.NameError
      ∧ import_pysis_cubefile = Except.error PyErr.NameError
      ∧ ∀ c : CoreLabel, dtype_run c = Except.error PyErr.NameError := by
  have hnp : lookupGlobal constantsModuleNames "np" = Except.error PyErr.NameError := by
    have hmem : ("np" ∈ constantsModuleNames) = False := by decide
    unfold lookupGlobal
    rw [if_neg (fun h => hmem ▸ h)]
  have hinit : PIXEL_TYPES_init = Except.error PyErr.NameError := by
    unfold PIXEL_TYPES_init
    rw [hnp]
  have himp : import_pysis_cubefile = Except.error PyErr.NameError := by
    unfold import_pysis_cubefile import_pysis_constants
    rw [hinit]
  exact ⟨hinit, himp, fun c => by unfold dtype_run; rw [himp]⟩

-- Helper: an in-range `getD` value is a member of the list.
theorem getD_mem_of_lt {α : Type} (l : List α) (i : Nat) (h : i < l.length) (d : α) :
    l.getD i d ∈ l := by
  induction l generalizing i with
  | nil => exact absurd h (Nat.not_lt_zero i)
  | cons a t ih =>
    cases i with
    | zero => exact List.mem_cons_self a t
    | succ j => exact List.mem_cons_of_mem a (ih j (Nat.lt_of_succ_lt_succ h))

-- Helper: a left fold by `min` is below its accumulator.
theorem foldl_min_le_acc (t : List ℚ) (acc : ℚ) : t.foldl min acc ≤ acc := by
  induction t generalizing acc with
  | nil => exact le_refl acc
  | cons a t ih => exact le_trans (ih (min acc a)) (min_le_left acc a)

-- Helper: a left fold by `min` is below every element folded over.
theorem foldl_min_le_mem (t : List ℚ) (acc v : ℚ) (hv : v ∈ t) : t.foldl min acc ≤ v := by
  induction t generalizing acc with
  | nil => cases hv
  | cons a t ih =>
    rcases List.mem_cons.1 hv with h | h
    · subst h
      exact le_trans (foldl_min_le_acc t (min acc v)) (min_le_right acc v)
    · exact ih (min acc a) h

-- Helper: `listMin` is a lower bound of the list.
theorem listMin_le (l : List ℚ) (v : ℚ) (hv : v ∈ l) : listMin l ≤ v := by
  cases l with
  | nil => cases hv
  | cons x t =>
    rcases List.mem_cons.1 hv with h | h
    · subst h
      exact foldl_min_le_acc t v
    · exact foldl_min_le_mem t x v h

-- Helper: a left fold by `max` is above its accumulator.
theorem le_foldl_max_acc (t : List ℚ) (acc : ℚ) : acc ≤ t.foldl max acc := by
  induction t generalizing acc with
  | nil => exact le_refl acc
  | cons a t ih => exact le_trans (le_max_left acc a) (ih (max acc a))

-- Helper: a left fold by `max` is above every element folded over.
theorem le_foldl_max_mem (t : List ℚ) (acc v : ℚ) (hv : v ∈ t) : v ≤ t.foldl max acc := by
  induction t generalizing acc with
  | nil => cases hv
  | cons a t ih =>
    rcases List.mem_cons.1 hv with h | h
    · subst h
      exact le_trans (le_max_right acc v) (le_foldl_max_acc t (max acc v))
    · exact ih (max acc a) h

-- Helper: `listMax` is an upper bound of the list.
theorem le_listMax (l : List ℚ) (v : ℚ) (hv : v ∈ l) : v ≤ listMax l := by
  cases l with
  | nil => cases hv
  | cons x t =>
    rcases List.mem_cons.1 hv with h | h
    · subst h
      exact le_foldl_max_acc t v
    · exact le_foldl_max_mem t x v h

-- Helper: position of every sentinel relative to the valid range and to
-- the interval [0, 255], for each of the six registry entries.
theorem sentinel_facts (e : PixelEncoding) :
    (SPECIAL_PIXELS e).Null < (SPECIAL_PIXELS e).Min
      ∧ (SPECIAL_PIXELS e).Lrs < (SPECIAL_PIXELS e).Min
      ∧ (SPECIAL_PIXELS e).Lis < (SPECIAL_PIXELS e).Min
      ∧ ((SPECIAL_PIXELS e).His < (SPECIAL_PIXELS e).Min ∨ (SPECIAL_PIXELS e).Max < (SPECIAL_PIXELS e).His)
      ∧ ((SPECIAL_PIXELS e).Hrs < (SPECIAL_PIXELS e).Min ∨ (SPECIAL_PIXELS e).Max < (SPECIAL_PIXELS e).Hrs)
      ∧ (SPECIAL_PIXELS e).Null ≠ (SPECIAL_PIXELS e).His
      ∧ (SPECIAL_PIXELS e).Null ≠ (SPECIAL_PIXELS e).Hrs
      ∧ (SPECIAL_PIXELS e).Lis ≠ (SPECIAL_PIXELS e).His
      ∧ (SPECIAL_PIXELS e).Lis ≠ (SPECIAL_PIXELS e).Hrs
      ∧ (SPECIAL_PIXELS e).Lrs ≠ (SPECIAL_PIXELS e).His
      ∧ (SPECIAL_PIXELS e).Lrs ≠ (SPECIAL_PIXELS e).Hrs
      ∧ ((SPECIAL_PIXELS e).His < 0 ∨ 255 ≤ (SPECIAL_PIXELS e).His)
      ∧ ((SPECIAL_PIXELS e).Hrs < 0 ∨ 255 ≤ (SPECIAL_PIXELS e).Hrs) := by
  cases e <;> decide

-- Helper: the sentinel assignments do not change a value that lies in
-- [0, 255] when the sentinel is outside [0, 255) (equality with a
-- sentinel that is exactly 255 overwrites the value with itself).
theorem stretch_sentinel_id (x t : ℚ) (h1 : 0 ≤ x) (h2 : x ≤ 255) (ht : t < 0 ∨ 255 ≤ t) :
    (if x = t then (255 : ℚ) else x) = x := by
  by_cases hx : x = t
  · rw [if_pos hx]
    rcases ht with h | h
    · have h0t : (0 : ℚ) ≤ t := by rw [← hx]; exact h1
      exact absurd h0t (not_le.2 h)
    · have h255x : (255 : ℚ) ≤ x := by rw [hx]; exact h
      exact (le_antisymm h2 h255x).symm
  · rw [if_neg hx]

/-- C5: for every pixel encoding, provided the cube has a valid pixel
and the valid values are not all equal (otherwise NumPy raises
respectively divides by zero), the pre-cast array of `get_image_array`
holds: the stretch formula `(v - valid_min) * 255 / valid_max_after` at
every valid pixel, the untouched original raw value at every
`Null`/`Lis`/`Lrs` pixel (they are excluded from the stretch but never
forced to 0), and 255 at every pixel whose original raw value is `His`
or `Hrs`. -/
theorem C5_image_stretch (e : PixelEncoding) (data : List ℚ) (i : Nat)
    (hi : i < data.length)
    (hvalid : ∃ v ∈ data, isValid (SPECIAL_PIXELS e) v)
    (hmax : 0 < validMaxAfter (SPECIAL_PIXELS e) data) :
    (isValid (SPECIAL_PIXELS e) (data.getD i 0) →
        (get_image_array (SPECIAL_PIXELS e) data).getD i 0
          = (data.getD i 0 - validMin (SPECIAL_PIXELS e) data) * 255
              / validMaxAfter (SPECIAL_PIXELS e) data)
      ∧ ((data.getD i 0 = ((SPECIAL_PIXELS e).Null : ℚ)
            ∨ data.getD i 0 = ((SPECIAL_PIXELS e).Lis : ℚ)
            ∨ data.getD i 0 = ((SPECIAL_PIXELS e).Lrs : ℚ)) →
          (get_image_array (SPECIAL_PIXELS e) data).getD i 0 = data.getD i 0)
      ∧ ((data.getD i 0 = ((SPECIAL_PIXELS e).His : ℚ)
            ∨ data.getD i 0 = ((SPECIAL_PIXELS e).Hrs : ℚ)) →
          (get_image_array (SPECIAL_PIXELS e) data).getD i 0 = 255) := by
  obtain ⟨h1, h2, h3, h4, h5, h6a, h6b, h6c, h6d, h6e, h6f, h7, h8⟩ := sentinel_facts e
  set sp := SPECIAL_PIXELS e with hsp
  set v := data.getD i 0 with hv
  set vmin := validMin sp data with hvmin
  set M := validMaxAfter sp data with hM
  have hout : (get_image_array sp data).getD i 0 = stretchPoint sp vmin M v :=
    getD_map_of_lt (stretchPoint sp vmin M) data i hi 0 0
  have hHisQ : ((sp.His : ℚ) < 0 ∨ (255 : ℚ) ≤ (sp.His : ℚ)) := by
    rcases h7 with h | h
    · exact Or.inl (by exact_mod_cast h)
    · exact Or.inr (by exact_mod_cast h)
  have hHrsQ : ((sp.Hrs : ℚ) < 0 ∨ (255 : ℚ) ≤ (sp.Hrs : ℚ)) := by
    rcases h8 with h | h
    · exact Or.inl (by exact_mod_cast h)
    · exact Or.inr (by exact_mod_cast h)
  refine ⟨fun hval => ?_, fun hlow => ?_, fun hhigh => ?_⟩
  · -- valid pixel: the stretch formula
    have hmem : v ∈ data := getD_mem_of_lt data i hi 0
    have hvf : v ∈ data.filter (fun w => decide (isValid sp w)) :=
      List.mem_filter.2 ⟨hmem, decide_eq_true hval⟩
    have hge : vmin ≤ v := listMin_le _ v hvf
    have hle : v - vmin ≤ M := le_listMax _ _ (List.mem_map.2 ⟨v, hvf, rfl⟩)
    have hratio : (0 : ℚ) ≤ 255 / M := div_nonneg (by norm_num) hmax.le
    have h0 : 0 ≤ (v - vmin) * (255 / M) := mul_nonneg (sub_nonneg.2 hge) hratio
    have h255 : (v - vmin) * (255 / M) ≤ 255 := by
      calc (v - vmin) * (255 / M) ≤ M * (255 / M) :=
            mul_le_mul_of_nonneg_right hle hratio
        _ = 255 := by rw [mul_comm, div_mul_cancel₀ _ (ne_of_gt hmax)]
    have hsv : stretchValid sp vmin M v = (v - vmin) * (255 / M) := if_pos hval
    have hhis : stretchHis sp ((v - vmin) * (255 / M)) = (v - vmin) * (255 / M) :=
      stretch_sentinel_id _ _ h0 h255 hHisQ
    have hhrs : stretchHrs sp ((v - vmin) * (255 / M)) = (v - vmin) * (255 / M) :=
      stretch_sentinel_id _ _ h0 h255 hHrsQ
    rw [hout]
    unfold stretchPoint
    rw [hsv, hhis, hhrs, mul_div_assoc]
  · -- Null / Lis / Lrs pixel: passes through unchanged
    have hlt : v < (sp.Min : ℚ) := by
      rcases hlow with hq | hq | hq
      · rw [hq]; exact_mod_cast h1
      · rw [hq]; exact_mod_cast h3
      · rw [hq]; exact_mod_cast h2
    have hnv : ¬ isValid sp v := fun hval => absurd hval.1 (not_le.2 hlt)
    have hneHis : v ≠ (sp.His : ℚ) := by
      rcases hlow with hq | hq | hq
      · rw [hq]; exact_mod_cast h6a
      · rw [hq]; exact_mod_cast h6c
      · rw [hq]; exact_mod_cast h6e
    have hneHrs : v ≠ (sp.Hrs : ℚ) := by
      rcases hlow with hq | hq | hq
      · rw [hq]; exact_mod_cast h6b
      · rw [hq]; exact_mod_cast h6d
      · rw [hq]; exact_mod_cast h6f
    have hsv : stretchValid sp vmin M v = v := if_neg hnv
    have hhis : stretchHis sp v = v := if_neg hneHis
    have hhrs : stretchHrs sp v = v := if_neg hneHrs
    rw [hout]
    unfold stretchPoint
    rw [hsv, hhis, hhrs]
  · -- His / Hrs pixel: forced to 255
    have hnv : ¬ isValid sp v := by
      rcases hhigh with hq | hq
      · rcases h4 with h | h
        · exact fun hval => absurd hval.1 (not_le.2 (by rw [hq]; exact_mod_cast h))
        · exact fun hval => absurd hval.2 (not_le.2 (by rw [hq]; exact_mod_cast h))
      · rcases h5 with h | h
        · exact fun hval => absurd hval.1 (not_le.2 (by rw [hq]; exact_mod_cast h))
        · exact fun hval => absurd hval.2 (not_le.2 (by rw [hq]; exact_mod_cast h))
    have hsv : stretchValid sp vmin M v = v := if_neg hnv
    rw [hout]
    unfold stretchPoint
    rw [hsv]
    rcases hhigh with hq | hq
    · have hhis : stretchHis sp v = 255 := if_pos hq
      rw [hhis]
      exact ite_self (255 : ℚ)
    · by_cases hh : v = (sp.His : ℚ)
      · have hhis : stretchHis sp v = 255 := if_pos hh
        rw [hhis]
        exact ite_self (255 : ℚ)
      · have hhis : stretchHis sp v = v := if_neg hh
        have hhrs : stretchHrs sp v = 255 := if_pos hq
        rw [hhis, hhrs]

/-- C5 witness: a `SignedWord` cube slice `[-32768, 10, 20, -32765]`
(`Null`, two valid values, `His`); the pixel holding `His` comes out of
the pre-cast stretch array as 255. -/
theorem C5_image_stretch_witness :
    (get_image_array (SPECIAL_PIXELS PixelEncoding.SignedWord)
        [-32768, 10, 20, -32765]).getD 3 0 = 255 := by
  have hlen : (3 : Nat) < ([-32768, 10, 20, -32765] : List ℚ).length := by
    simp
  have hmem10 : (10 : ℚ) ∈ ([-32768, 10, 20, -32765] : List ℚ) :=
    List.mem_cons_of_mem _ (List.mem_cons_self 10 [20, -32765])
  have hmem20 : (20 : ℚ) ∈ ([-32768, 10, 20, -32765] : List ℚ) :=
    List.mem_cons_of_mem _ (List.mem_cons_of_mem _ (List.mem_cons_self 20 [-32765]))
  have hval10 : isValid (SPECIAL_PIXELS PixelEncoding.SignedWord) 10 := by
    constructor <;> norm_num [SPECIAL_PIXELS]
  have hval20 : isValid (SPECIAL_PIXELS PixelEncoding.SignedWord) 20 := by
    constructor <;> norm_num [SPECIAL_PIXELS]
  have hf10 : (10 : ℚ) ∈ ([-32768, 10, 20, -32765] : List ℚ).filter
      (fun w => decide (isValid (SPECIAL_PIXELS PixelEncoding.SignedWord) w)) :=
    List.mem_filter.2 ⟨hmem10, decide_eq_true hval10⟩
  have hf20 : (20 : ℚ) ∈ ([-32768, 10, 20, -32765] : List ℚ).filter
      (fun w => decide (isValid (SPECIAL_PIXELS PixelEncoding.SignedWord) w)) :=
    List.mem_filter.2 ⟨hmem20, decide_eq_true hval20⟩
  have hvalid : ∃ v ∈ ([-32768, 10, 20, -32765] : List ℚ),
      isValid (SPECIAL_PIXELS PixelEncoding.SignedWord) v := ⟨10, hmem10, hval10⟩
  have hminle : validMin (SPECIAL_PIXELS PixelEncoding.SignedWord) [-32768, 10, 20, -32765] ≤ 10 :=
    listMin_le _ _ hf10
  have hsub : (20 : ℚ) - validMin (SPECIAL_PIXELS PixelEncoding.SignedWord) [-32768, 10, 20, -32765]
      ≤ validMaxAfter (SPECIAL_PIXELS PixelEncoding.SignedWord) [-32768, 10, 20, -32765] :=
    le_listMax _ _ (List.mem_map.2 ⟨20, hf20, rfl⟩)
  have hmax : 0 < validMaxAfter (SPECIAL_PIXELS PixelEncoding.SignedWord) [-32768, 10, 20, -32765] := by
    linarith
  have hHis : ([-32768, 10, 20, -32765] : List ℚ).getD 3 0
      = ((SPECIAL_PIXELS PixelEncoding.SignedWord).His : ℚ) := by
    norm_num [List.getD, SPECIAL_PIXELS]
  exact (C5_image_stretch PixelEncoding.SignedWord [-32768, 10, 20, -32765] 3
    hlen hvalid hmax).2.2 (Or.inl hHis)

-- Helper: `getD` through `take` below the cut.
theorem getD_take {α : Type} (l : List α) (n i : Nat) (h : i < n) (d : α) :
    (l.take n).getD i d = l.getD i d := by
  induction l generalizing n i with
  | nil => rw [List.take_nil]
  | cons a t ih =>
    cases n with
    | zero => exact absurd h (Nat.not_lt_zero i)
    | succ m =>
      cases i with
      | zero => rfl
      | succ j => exact ih m j (Nat.lt_of_succ_lt_succ h)

-- Helper: `getD` through `drop` shifts the index.
theorem getD_drop {α : Type} (l : List α) (p i : Nat) (d : α) :
    (l.drop p).getD i d = l.getD (p + i) d := by
  induction l generalizing p with
  | nil =>
    rw [List.drop_nil]
    simp [List.getD]
  | cons a t ih =>
    cases p with
    | zero =>
      rw [Nat.zero_add]
      rfl
    | succ q =>
      have h1 : q + 1 + i = (q + i) + 1 := by omega
      show (t.drop q).getD i d = (a :: t).getD (q + 1 + i) d
      rw [h1]
      exact ih q

-- Helper: reading index `i` of an `n`-element window starting at `p`.
theorem getD_take_drop {α : Type} (l : List α) (p n i : Nat) (h : i < n) (d : α) :
    ((l.drop p).take n).getD i d = l.getD (p + i) d := by
  rw [getD_take _ n i h, getD_drop]

-- Helper: the flat row-major index of an in-range (band, line, sample)
-- triple is below the total element count.
theorem index3_lt {b l s B L S : Nat} (hb : b < B) (hl : l < L) (hs : s < S) :
    b * (L * S) + l * S + s < B * L * S := by
  have h1 : l * S + s < L * S := by
    calc l * S + s < l * S + S := Nat.add_lt_add_left hs _
      _ = (l + 1) * S := (Nat.succ_mul l S).symm
      _ ≤ L * S := Nat.mul_le_mul_right S hl
  calc b * (L * S) + l * S + s = b * (L * S) + (l * S + s) := Nat.add_assoc _ _ _
    _ < b * (L * S) + L * S := Nat.add_lt_add_left h1 _
    _ = (b + 1) * (L * S) := (Nat.succ_mul b (L * S)).symm
    _ ≤ B * (L * S) := Nat.mul_le_mul_right (L * S) hb
    _ = B * L * S := (Nat.mul_assoc B L S).symm

-- Helper: successful band-sequential parse, characterized.
theorem parse_data_bsq_spec {α : Type} [Inhabited α] (c : CoreLabel) (stream : List α)
    (hfmt : c.format = "BandSequential")
    (hdt : ∃ d2, dtype c = Except.ok d2)
    (hlen : c.startByte - 1 + size c ≤ stream.length) :
    _parse_data c stream
      = Except.ok (reshape3 c.lines c.samples ((stream.drop (c.startByte - 1)).take (size c)),
          (c.startByte - 1) + size c) := by
  obtain ⟨d2, hd2⟩ := hdt
  have hread : readElems stream (start_byte c) (size c)
      = Except.ok ((stream.drop (start_byte c)).take (size c)) := by
    unfold readElems
    rw [if_pos (by unfold start_byte; omega)]
  unfold _parse_data
  rw [if_pos hfmt]
  unfold parse_band_sequential_data
  rw [hd2, hread]
  rfl

/-- C2: for a band-sequential cube with enough data after the start
offset (the label's 1-indexed start byte minus one), decode succeeds
having consumed exactly `bands*lines*samples` elements, and the element
at flat stream position `startOffset + b*(lines*samples) + l*samples + s`
lands at index `(b, l, s)`: band outermost, sample innermost,
row-major. -/
theorem C2_band_sequential_decode {α : Type} [Inhabited α] (c : CoreLabel) (stream : List α)
    (hfmt : c.format = "BandSequential")
    (hdt : ∃ d2, dtype c = Except.ok d2)
    (hlen : c.startByte - 1 + size c ≤ stream.length)
    (b l s : Nat) (hb : b < c.bands) (hl : l < c.lines) (hs : s < c.samples) :
    ∃ d, _parse_data c stream = Except.ok (d, (c.startByte - 1) + size c)
      ∧ d b l s = stream.getD
          ((c.startByte - 1) + (b * (c.lines * c.samples) + l * c.samples + s)) default := by
  refine ⟨_, parse_data_bsq_spec c stream hfmt hdt hlen, ?_⟩
  unfold reshape3
  exact getD_take_drop stream _ _ _ (index3_lt hb hl hs) default

/-- C2 witness: a 1-band 2x2 band-sequential cube over the stream
`[1, 2, 3, 4]`; the element at flat position 2 lands at
(band 0, line 1, sample 0). -/
theorem C2_band_sequential_decode_witness :
    ∃ d : Nat → Nat → Nat → Int,
      _parse_data (⟨1, 2, 2, "BandSequential", "SignedWord", "Msb", 1, 1, 1, 0, 1⟩ : CoreLabel)
          ([1, 2, 3, 4] : List Int) = Except.ok (d, 4)
        ∧ d 0 1 0 = 3 := by
  obtain ⟨d, hok, hval⟩ := C2_band_sequential_decode
    (⟨1, 2, 2, "BandSequential", "SignedWord", "Msb", 1, 1, 1, 0, 1⟩ : CoreLabel)
    ([1, 2, 3, 4] : List Int) rfl ⟨("int16", ">"), rfl⟩ (by decide) 0 1 0
    (by decide) (by decide) (by decide)
  refine ⟨d, hok, ?_⟩
  rw [hval]
  decide

-- Helper: mapping `getD` over the index range reproduces the list.
theorem map_getD_range {α : Type} (l : List α) (d : α) :
    (List.range l.length).map (fun k => l.getD k d) = l := by
  induction l with
  | nil => rfl
  | cons a t ih =>
    show (List.range (t.length + 1)).map (fun k => (a :: t).getD k d) = a :: t
    rw [List.range_succ_eq_map, List.map_cons, List.map_map]
    have htail : (List.range t.length).map ((fun k => (a :: t).getD k d) ∘ (· + 1)) = t :=
      (map_ext_list _ _ _ fun k => rfl).trans ih
    rw [htail]
    rfl

-- Helper: recomposing a flat index from its row-major 3-D coordinates.
theorem decomp3_eq (k L S : Nat) :
    k / (L * S) * (L * S) + (k % (L * S) / S * S + k % S) = k := by
  have e2 := Nat.div_add_mod (k % (L * S)) S
  have e3 : k % (L * S) % S = k % S := Nat.mod_mod_of_dvd k (dvd_mul_left S L)
  calc k / (L * S) * (L * S) + (k % (L * S) / S * S + k % S)
      = (L * S) * (k / (L * S)) + (S * (k % (L * S) / S) + k % (L * S) % S) := by
        rw [← e3, Nat.mul_comm (k / (L * S)) (L * S), Nat.mul_comm (k % (L * S) / S) S]
    _ = (L * S) * (k / (L * S)) + k % (L * S) := by rw [e2]
    _ = k := Nat.div_add_mod k (L * S)

-- Helper: serializing a reshaped flat run of the right length gives it back.
theorem serialize_reshape3 {α : Type} [Inhabited α] (c : CoreLabel) (flat : List α)
    (hlen : flat.length = size c) :
    serialize c (reshape3 c.lines c.samples flat) = flat := by
  unfold serialize reshape3
  calc (List.range (size c)).map (fun k =>
          flat.getD (k / (c.lines * c.samples) * (c.lines * c.samples)
            + k % (c.lines * c.samples) / c.samples * c.samples + k % c.samples) default)
      = (List.range (size c)).map (fun k => flat.getD k default) :=
        map_ext_list _ _ _ (fun k => by
          rw [Nat.add_assoc, decomp3_eq k c.lines c.samples])
    _ = flat := by rw [← hlen, map_getD_range]

/-- C8: decoding a band-sequential cube whose stream holds at least
`bands*lines*samples` elements after the start offset and then
re-serializing the raw buffer in the same row-major order (same element
type and byte order, under which the element run determines the byte
stream) reproduces the data region of the stream exactly. -/
theorem C8_bsq_roundtrip {α : Type} [Inhabited α] (c : CoreLabel) (stream : List α)
    (hfmt : c.format = "BandSequential")
    (hdt : ∃ d2, dtype c = Except.ok d2)
    (hlen : c.startByte - 1 + size c ≤ stream.length) :
    ∃ d, _parse_data c stream = Except.ok (d, (c.startByte - 1) + size c)
      ∧ serialize c d = (stream.drop (c.startByte - 1)).take (size c) := by
  refine ⟨_, parse_data_bsq_spec c stream hfmt hdt hlen, serialize_reshape3 c _ ?_⟩
  rw [List.length_take, List.length_drop]
  omega

/-- C8 witness: the 1-band 2x2 cube over `[1, 2, 3, 4]` decodes and
re-serializes to exactly `[1, 2, 3, 4]`. -/
theorem C8_bsq_roundtrip_witness :
    ∃ d : Nat → Nat → Nat → Int,
      _parse_data (⟨1, 2, 2, "BandSequential", "SignedWord", "Msb", 1, 1, 1, 0, 1⟩ : CoreLabel)
          ([1, 2, 3, 4] : List Int) = Except.ok (d, 4)
        ∧ serialize (⟨1, 2, 2, "BandSequential", "SignedWord", "Msb", 1, 1, 1, 0, 1⟩ : CoreLabel) d
            = [1, 2, 3, 4] := by
  obtain ⟨d, hok, hser⟩ := C8_bsq_roundtrip
    (⟨1, 2, 2, "BandSequential", "SignedWord", "Msb", 1, 1, 1, 0, 1⟩ : CoreLabel)
    ([1, 2, 3, 4] : List Int) rfl ⟨("int16", ">"), rfl⟩ (by decide)
  exact ⟨d, hok, hser⟩

/-- C6: the failure modes of resolve/decode.  With a recognized format
tag, a byte-order tag missing from `BYTE_ORDERS` fails with
`UnknownByteOrder`; with the byte order resolved, a pixel type missing
from `PIXEL_TYPES` fails with `UnsupportedEncoding`; a format tag other
than `BandSequential`/`Tile` fails with `UnsupportedLayout`; a stream
with fewer elements than required fails with `TruncatedData` in either
decoder; every error is one of these four kinds and no decoded image is
returned alongside an error. -/
theorem C6_error_taxonomy {α : Type} [Inhabited α] (c : CoreLabel) (stream : List α) :
    ((c.format = "BandSequential" ∨ c.format = "Tile") → BYTE_ORDERS c.byteOrder = none →
        _parse_data c stream = Except.error DecodeError.UnknownByteOrder)
      ∧ ((c.format = "BandSequential" ∨ c.format = "Tile") →
          (∃ bo, BYTE_ORDERS c.byteOrder = some bo) → PIXEL_TYPES c.pixelType = none →
          _parse_data c stream = Except.error DecodeError.UnsupportedEncoding)
      ∧ (c.format ≠ "BandSequential" → c.format ≠ "Tile" →
          _parse_data c stream = Except.error DecodeError.UnsupportedLayout)
      ∧ (c.format = "BandSequential" → (∃ d2, dtype c = Except.ok d2) →
          stream.length - (c.startByte - 1) < size c →
          _parse_data c stream = Except.error DecodeError.TruncatedData)
      ∧ (c.format = "Tile" → (∃ d2, dtype c = Except.ok d2) →
          (∃ o rest, tileOrigins c = o :: rest) →
          stream.length - (c.startByte - 1) < c.tileLines * c.tileSamples →
          _parse_data c stream = Except.error DecodeError.TruncatedData)
      ∧ (∀ err : DecodeError, _parse_data c stream = Except.error err →
          (err = DecodeError.UnsupportedEncoding ∨ err = DecodeError.UnknownByteOrder
            ∨ err = DecodeError.UnsupportedLayout ∨ err = DecodeError.TruncatedData)
          ∧ ¬∃ d pos, _parse_data c stream = Except.ok (d, pos)) := by
  have hdisp : ∀ hf : c.format = "BandSequential" ∨ c.format = "Tile", ∀ e : DecodeError,
      dtype c = Except.error e → _parse_data c stream = Except.error e := by
    intro hf e he
    unfold _parse_data
    rcases hf with hf | hf
    · rw [if_pos hf]
      unfold parse_band_sequential_data
      rw [he]
    · rw [if_neg (by rw [hf]; decide), if_pos hf]
      unfold parse_tile_data
      rw [he]
  refine ⟨fun hf hbo => ?_, fun hf hbo hpt => ?_, fun h1 h2 => ?_, fun hf hdt hshort => ?_,
    fun hf hdt ho hshort => ?_, fun err herr => ⟨?_, ?_⟩⟩
  · refine hdisp hf _ ?_
    unfold dtype
    rw [hbo]
  · obtain ⟨bo, hbo⟩ := hbo
    refine hdisp hf _ ?_
    unfold dtype
    rw [hbo, hpt]
  · unfold _parse_data
    rw [if_neg h1, if_neg h2]
  · obtain ⟨d2, hd2⟩ := hdt
    have hread : readElems stream (start_byte c) (size c) = Except.error DecodeError.TruncatedData := by
      unfold readElems
      rw [if_neg (by unfold start_byte; omega)]
    unfold _parse_data
    rw [if_pos hf]
    unfold parse_band_sequential_data
    rw [hd2, hread]
  · obtain ⟨d2, hd2⟩ := hdt
    obtain ⟨⟨b0, l0, s0⟩, rest, ho⟩ := ho
    have hread : readElems stream (start_byte c) (c.tileLines * c.tileSamples)
        = Except.error DecodeError.TruncatedData := by
      unfold readElems
      rw [if_neg (by unfold start_byte; omega)]
    unfold _parse_data
    rw [if_neg (by rw [hf]; decide), if_pos hf]
    unfold parse_tile_data
    rw [hd2, ho]
    unfold parseTilesLoop
    rw [hread]
  · cases err <;> simp
  · rintro ⟨d, pos, hok⟩
    rw [herr] at hok
    exact Except.noConfusion hok

/-- C6 witness: a label whose format tag is `Qube` fails with
`UnsupportedLayout`. -/
theorem C6_error_taxonomy_witness :
    _parse_data (⟨1, 1, 1, "Qube", "SignedWord", "Msb", 1, 1, 1, 0, 1⟩ : CoreLabel)
        ([] : List Int) = Except.error DecodeError.UnsupportedLayout :=
  (C6_error_taxonomy (⟨1, 1, 1, "Qube", "SignedWord", "Msb", 1, 1, 1, 0, 1⟩ : CoreLabel)
    ([] : List Int)).2.2.1 (by decide) (by decide)

-- Helper: `map` congruence restricted to members.
theorem map_ext_mem {α β : Type} (f g : α → β) (l : List α) (h : ∀ a ∈ l, f a = g a) :
    l.map f = l.map g := by
  induction l with
  | nil => rfl
  | cons a t ih =>
    rw [List.map_cons, List.map_cons, h a (List.mem_cons_self a t),
      ih (fun b hb => h b (List.mem_cons_of_mem a hb))]

-- Helper: `flatMap` congruence under a pointwise function equality.
theorem flatMap_ext_list {α β : Type} (f g : α → List β) (l : List α) (h : ∀ a, f a = g a) :
    l.flatMap f = l.flatMap g := by
  induction l with
  | nil => rfl
  | cons a t ih => rw [List.flatMap_cons, List.flatMap_cons, h a, ih]

-- Helper: a doubly nested range traversal is the row-major enumeration
-- of the product range.
theorem flatMap_range_map {β : Type} (n m : Nat) (g : Nat → Nat → β) :
    (List.range n).flatMap (fun i => (List.range m).map (g i))
      = (List.range (n * m)).map (fun k => g (k / m) (k % m)) := by
  induction n with
  | zero =>
    rw [Nat.zero_mul]
    rfl
  | succ n ih =>
    rw [List.range_succ, List.flatMap_append, ih, Nat.succ_mul, List.range_add,
      List.map_append, List.map_map]
    congr 1
    rw [List.flatMap_cons, List.flatMap_nil, List.append_nil]
    refine map_ext_mem _ _ _ (fun j hj => ?_)
    have hjm : j < m := List.mem_range.1 hj
    have hm : 0 < m := Nat.lt_of_le_of_lt (Nat.zero_le j) hjm
    show g n j = g ((n * m + j) / m) ((n * m + j) % m)
    have hd : (n * m + j) / m = n := by
      rw [Nat.mul_comm n m, Nat.mul_add_div hm, Nat.div_eq_of_lt hjm, Nat.add_zero]
    have hmod : (n * m + j) % m = j := by
      rw [Nat.mul_comm n m, Nat.mul_add_mod, Nat.mod_eq_of_lt hjm]
    rw [hd, hmod]

-- Helper: the tile traversal enumerated by a single flat index, band
-- outermost, then tile row, then tile column.
theorem tileOrigins_eq (c : CoreLabel) :
    tileOrigins c
      = (List.range (c.bands * (nTileRows c * nTileCols c))).map (originOfIdx c) := by
  have hstepC : rangeStep c.samples c.tileSamples
      = (List.range (nTileCols c)).map (· * c.tileSamples) := rfl
  have hstepR : rangeStep c.lines c.tileLines
      = (List.range (nTileRows c)).map (· * c.tileLines) := rfl
  have inner : ∀ b : Nat,
      (rangeStep c.lines c.tileLines).flatMap (fun line =>
        (rangeStep c.samples c.tileSamples).map (fun sample => (b, line, sample)))
      = (List.range (nTileRows c * nTileCols c)).map (fun k2 =>
          (b, k2 / nTileCols c * c.tileLines, k2 % nTileCols c * c.tileSamples)) := by
    intro b
    rw [hstepR, hstepC, List.flatMap_map]
    calc (List.range (nTileRows c)).flatMap (fun r =>
            ((List.range (nTileCols c)).map (· * c.tileSamples)).map
              (fun sample => (b, r * c.tileLines, sample)))
        = (List.range (nTileRows c)).flatMap (fun r =>
            (List.range (nTileCols c)).map
              (fun cidx => (b, r * c.tileLines, cidx * c.tileSamples))) := by
          refine flatMap_ext_list _ _ _ (fun r => ?_)
          rw [List.map_map]
          exact map_ext_list _ _ _ (fun cidx => rfl)
      _ = (List.range (nTileRows c * nTileCols c)).map (fun k2 =>
            (b, k2 / nTileCols c * c.tileLines, k2 % nTileCols c * c.tileSamples)) :=
          flatMap_range_map (nTileRows c) (nTileCols c)
            (fun r cidx => (b, r * c.tileLines, cidx * c.tileSamples))
  calc tileOrigins c
      = (List.range c.bands).flatMap (fun b =>
          (List.range (nTileRows c * nTileCols c)).map (fun k2 =>
            (b, k2 / nTileCols c * c.tileLines, k2 % nTileCols c * c.tileSamples))) :=
        flatMap_ext_list _ _ _ inner
    _ = (List.range (c.bands * (nTileRows c * nTileCols c))).map (originOfIdx c) :=
        flatMap_range_map c.bands (nTileRows c * nTileCols c)
          (fun b k2 => (b, k2 / nTileCols c * c.tileLines, k2 % nTileCols c * c.tileSamples))

-- Helper: length of the tile traversal.
theorem tileOrigins_length (c : CoreLabel) :
    (tileOrigins c).length = c.bands * (nTileRows c * nTileCols c) := by
  rw [tileOrigins_eq, List.length_map, List.length_range]

-- Helper: the k-th visited tile origin.
theorem tileOrigins_getElem (c : CoreLabel) (k : Nat)
    (hk : k < c.bands * (nTileRows c * nTileCols c)) :
    (tileOrigins c)[k]? = some (originOfIdx c k) := by
  rw [tileOrigins_eq, List.getElem?_map, List.getElem?_range hk]
  rfl

-- Helper: any successfully indexed origin is in range and of the
-- enumerated form.
theorem tileOrigins_getElem_inv (c : CoreLabel) (j : Nat) (o : Nat × Nat × Nat)
    (h : (tileOrigins c)[j]? = some o) :
    j < c.bands * (nTileRows c * nTileCols c) ∧ o = originOfIdx c j := by
  rcases Nat.lt_or_ge j (tileOrigins c).length with hj | hj
  · have hjlt : j < c.bands * (nTileRows c * nTileCols c) := tileOrigins_length c ▸ hj
    have h2 := tileOrigins_getElem c j hjlt
    rw [h2] at h
    exact ⟨hjlt, (Option.some.inj h).symm⟩
  · rw [List.getElem?_eq_none hj] at h
    cases h

-- Helper: the slot found by integer division covers the point.
theorem div_slot_mem {x stop step : Nat} (hstep : 0 < step) (hx : x < stop) :
    x / step * step ≤ x
      ∧ x < x / step * step + min step (stop - x / step * step) := by
  have hq : x / step * step ≤ x := Nat.div_mul_le_self x step
  refine ⟨hq, ?_⟩
  have hlt : x < x / step * step + step := by
    calc x = x / step * step + x % step := (Nat.div_add_mod' x step).symm
      _ < x / step * step + step := Nat.add_lt_add_left (Nat.mod_lt x hstep) _
  rcases Nat.le_total step (stop - x / step * step) with hmin | hmin
  · rw [Nat.min_eq_left hmin]
    exact hlt
  · rw [Nat.min_eq_right hmin, Nat.add_sub_cancel' (Nat.le_trans hq (Nat.le_of_lt hx))]
    exact hx

-- Helper: a clipped slot containing the point determines its row index.
theorem div_slot_unique {x stop step r : Nat} (hstep : 0 < step)
    (h1 : r * step ≤ x) (h2 : x < r * step + min step (stop - r * step)) :
    r * step = x / step * step ∧ r = x / step := by
  have h2' : x < (r + 1) * step := by
    calc x < r * step + min step (stop - r * step) := h2
      _ ≤ r * step + step := Nat.add_le_add_left (Nat.min_le_left _ _) _
      _ = (r + 1) * step := (Nat.succ_mul r step).symm
  have hr : r = x / step := (Nat.div_eq_of_lt_le h1 h2').symm
  exact ⟨by rw [hr], hr⟩

-- Helper: two-coordinate row-major index bound.
theorem index2_lt {r cc R C : Nat} (hr : r < R) (hc : cc < C) : r * C + cc < R * C := by
  calc r * C + cc < r * C + C := Nat.add_lt_add_left hc _
    _ = (r + 1) * C := (Nat.succ_mul r C).symm
    _ ≤ R * C := Nat.mul_le_mul_right C hr

-- Helper: quotient and remainder of a two-coordinate row-major index.
theorem add_mul_div_eq {a N rem : Nat} (hN : 0 < N) (hrem : rem < N) :
    (a * N + rem) / N = a := by
  rw [Nat.mul_comm a N, Nat.mul_add_div hN, Nat.div_eq_of_lt hrem, Nat.add_zero]

theorem add_mul_mod_eq {a N rem : Nat} (hrem : rem < N) : (a * N + rem) % N = rem := by
  rw [Nat.mul_comm a N, Nat.mul_add_mod, Nat.mod_eq_of_lt hrem]

-- Helper: dividing an in-range coordinate by the step lands below the
-- ceiling tile count.
theorem div_lt_ceil {x stop step : Nat} (hstep : 0 < step) (hx : x < stop) :
    x / step < (stop + step - 1) / step := by
  have hstop : 0 < stop := Nat.lt_of_le_of_lt (Nat.zero_le x) hx
  have h1 : stop + step - 1 = (stop - 1) + step := by omega
  rw [h1, Nat.add_div_right _ hstep]
  exact Nat.lt_succ_of_le (Nat.div_le_div_right (by omega))

-- Helper: the enumerated origin at the flat index of `(b, l, s)`.
theorem originOfIdx_tileIdx (c : CoreLabel) (b l s : Nat)
    (htl : 0 < c.tileLines) (hts : 0 < c.tileSamples)
    (hl : l < c.lines) (hs : s < c.samples) :
    originOfIdx c (tileIdx c b l s)
      = (b, l / c.tileLines * c.tileLines, s / c.tileSamples * c.tileSamples) := by
  have hrlt : l / c.tileLines < nTileRows c := div_lt_ceil htl hl
  have hclt : s / c.tileSamples < nTileCols c := div_lt_ceil hts hs
  have hnC : 0 < nTileCols c := Nat.lt_of_le_of_lt (Nat.zero_le _) hclt
  have hnR : 0 < nTileRows c := Nat.lt_of_le_of_lt (Nat.zero_le _) hrlt
  have hN : 0 < nTileRows c * nTileCols c := Nat.mul_pos hnR hnC
  have hA : l / c.tileLines * nTileCols c + s / c.tileSamples
      < nTileRows c * nTileCols c := index2_lt hrlt hclt
  unfold originOfIdx tileIdx
  rw [add_mul_div_eq hN hA, add_mul_mod_eq hA, add_mul_div_eq hnC hclt,
    add_mul_mod_eq hclt]

-- Helper: that origin covers `(b, l, s)`.
theorem covers_origin (c : CoreLabel) (b l s : Nat)
    (htl : 0 < c.tileLines) (hts : 0 < c.tileSamples)
    (hl : l < c.lines) (hs : s < c.samples) :
    covers c (b, l / c.tileLines * c.tileLines, s / c.tileSamples * c.tileSamples) b l s := by
  obtain ⟨ha1, ha2⟩ := div_slot_mem htl hl
  obtain ⟨hb1, hb2⟩ := div_slot_mem hts hs
  exact ⟨rfl, ha1, ha2, hb1, hb2⟩

-- Helper: no other visited origin covers `(b, l, s)`.
theorem covers_unique (c : CoreLabel) (b l s j : Nat)
    (htl : 0 < c.tileLines) (hts : 0 < c.tileSamples)
    (hl : l < c.lines) (hs : s < c.samples)
    (hj : j < c.bands * (nTileRows c * nTileCols c))
    (hcov : covers c (originOfIdx c j) b l s) :
    j = tileIdx c b l s := by
  have hclt : s / c.tileSamples < nTileCols c := div_lt_ceil hts hs
  have hnC : 0 < nTileCols c := Nat.lt_of_le_of_lt (Nat.zero_le _) hclt
  have hrlt : l / c.tileLines < nTileRows c := div_lt_ceil htl hl
  have hnR : 0 < nTileRows c := Nat.lt_of_le_of_lt (Nat.zero_le _) hrlt
  have hN : 0 < nTileRows c * nTileCols c := Nat.mul_pos hnR hnC
  obtain ⟨hband, hl1, hl2, hs1, hs2⟩ := hcov
  have hrow := div_slot_unique htl hl1 hl2
  have hcol := div_slot_unique hts hs1 hs2
  calc j = j / (nTileRows c * nTileCols c) * (nTileRows c * nTileCols c)
        + j % (nTileRows c * nTileCols c) := (Nat.div_add_mod' j _).symm
    _ = j / (nTileRows c * nTileCols c) * (nTileRows c * nTileCols c)
        + (j % (nTileRows c * nTileCols c) / nTileCols c * nTileCols c
          + j % (nTileRows c * nTileCols c) % nTileCols c) := by
        rw [Nat.div_add_mod' (j % (nTileRows c * nTileCols c)) (nTileCols c)]
    _ = b * (nTileRows c * nTileCols c)
        + (l / c.tileLines * nTileCols c + s / c.tileSamples) := by
        have hband2 : j / (nTileRows c * nTileCols c) = b := hband.symm
        rw [hband2, hrow.2, hcol.2]
    _ = tileIdx c b l s := rfl

-- Helper: full characterization of the tile loop over any origin list:
-- it succeeds when the stream holds one full tile per origin, consumes
-- exactly `tile_lines*tile_samples` elements per origin (edge tiles
-- included), leaves uncovered positions untouched, and writes each
-- uniquely covered position from the corresponding offset of its tile's
-- full run.
theorem parseTilesLoop_spec {α : Type} [Inhabited α] (c : CoreLabel) (stream : List α)
    (L : List (Nat × Nat × Nat)) :
    ∀ (d0 : Nat → Nat → Nat → α) (pos : Nat),
      pos + L.length * (c.tileLines * c.tileSamples) ≤ stream.length →
      ∃ dfin, parseTilesLoop c stream L (d0, pos)
          = Except.ok (dfin, pos + L.length * (c.tileLines * c.tileSamples))
        ∧ (∀ b l s, (∀ o ∈ L, ¬ covers c o b l s) → dfin b l s = d0 b l s)
        ∧ (∀ b l s k band line sample,
            L[k]? = some (band, line, sample) →
            covers c (band, line, sample) b l s →
            (∀ j o2, L[j]? = some o2 → covers c o2 b l s → j = k) →
            dfin b l s = stream.getD
              (pos + k * (c.tileLines * c.tileSamples)
                + ((l - line) * c.tileSamples + (s - sample))) default) := by
  induction L with
  | nil =>
    intro d0 pos hlen
    refine ⟨d0, ?_, fun b l s _ => rfl, fun b l s k band line sample hk _ _ => ?_⟩
    · rw [List.length_nil, Nat.zero_mul, Nat.add_zero]
      rfl
    · rw [List.getElem?_nil] at hk
      cases hk
  | cons hd rest ih =>
    obtain ⟨band0, line0, sample0⟩ := hd
    intro d0 pos hlen
    rw [List.length_cons, Nat.succ_mul] at hlen
    have hlen1 : pos + c.tileLines * c.tileSamples ≤ stream.length :=
      Nat.le_trans (Nat.add_le_add_left (Nat.le_add_left _ _) pos) hlen
    have hread : readElems stream pos (c.tileLines * c.tileSamples)
        = Except.ok ((stream.drop pos).take (c.tileLines * c.tileSamples)) := by
      unfold readElems
      rw [if_pos (Nat.le_sub_of_add_le' hlen1)]
    have hlen2 : (pos + c.tileLines * c.tileSamples)
        + rest.length * (c.tileLines * c.tileSamples) ≤ stream.length := by
      rw [Nat.add_assoc, Nat.add_comm (c.tileLines * c.tileSamples)
        (rest.length * (c.tileLines * c.tileSamples))]
      exact hlen
    obtain ⟨dfin, hfin, hunt, hcov⟩ := ih (writeTile d0 band0 line0 sample0
      (min c.tileLines (c.lines - line0)) (min c.tileSamples (c.samples - sample0))
      ((stream.drop pos).take (c.tileLines * c.tileSamples)) c.tileSamples)
      (pos + c.tileLines * c.tileSamples) hlen2
    have hstep0 : parseTilesLoop c stream ((band0, line0, sample0) :: rest) (d0, pos)
        = match readElems stream pos (c.tileLines * c.tileSamples) with
          | .error e => .error e
          | .ok tile => parseTilesLoop c stream rest (writeTile d0 band0 line0 sample0
              (min c.tileLines (c.lines - line0)) (min c.tileSamples (c.samples - sample0))
              tile c.tileSamples,
            pos + c.tileLines * c.tileSamples) := rfl
    have hstep : parseTilesLoop c stream ((band0, line0, sample0) :: rest) (d0, pos)
        = parseTilesLoop c stream rest (writeTile d0 band0 line0 sample0
            (min c.tileLines (c.lines - line0)) (min c.tileSamples (c.samples - sample0))
            ((stream.drop pos).take (c.tileLines * c.tileSamples)) c.tileSamples,
          pos + c.tileLines * c.tileSamples) := by
      rw [hstep0, hread]
    refine ⟨dfin, ?_, ?_, ?_⟩
    · rw [hstep, hfin, List.length_cons, Nat.succ_mul,
        Nat.add_assoc pos (c.tileLines * c.tileSamples)
          (rest.length * (c.tileLines * c.tileSamples)),
        Nat.add_comm (c.tileLines * c.tileSamples)
          (rest.length * (c.tileLines * c.tileSamples))]
    · intro b l s hnc
      have hnchead : ¬ covers c (band0, line0, sample0) b l s :=
        hnc _ (List.mem_cons_self _ _)
      have hncrest : ∀ o ∈ rest, ¬ covers c o b l s :=
        fun o ho => hnc o (List.mem_cons_of_mem _ ho)
      rw [hunt b l s hncrest]
      exact if_neg hnchead
    · intro b l s k band line sample hk hc huniq
      cases k with
      | zero =>
        rw [List.getElem?_cons_zero] at hk
        have hinj := Option.some.inj hk
        obtain ⟨hb0, hl0, hs0⟩ : band0 = band ∧ line0 = line ∧ sample0 = sample :=
          ⟨congrArg Prod.fst hinj, congrArg (fun p => p.2.1) hinj,
            congrArg (fun p => p.2.2) hinj⟩
        subst hb0
        subst hl0
        subst hs0
        have hnorest : ∀ o2 ∈ rest, ¬ covers c o2 b l s := by
          intro o2 ho2 hcv
          obtain ⟨j, hj⟩ := List.getElem?_of_mem ho2
          have h0 := huniq (j + 1) o2 (by rw [List.getElem?_cons_succ]; exact hj) hcv
          exact Nat.succ_ne_zero j h0
        rw [hunt b l s hnorest]
        have hw : writeTile d0 band0 line0 sample0 (min c.tileLines (c.lines - line0))
            (min c.tileSamples (c.samples - sample0))
            ((stream.drop pos).take (c.tileLines * c.tileSamples)) c.tileSamples b l s
            = ((stream.drop pos).take (c.tileLines * c.tileSamples)).getD
                ((l - line0) * c.tileSamples + (s - sample0)) default := if_pos hc
        rw [hw]
        obtain ⟨hbeq, h1', h2', h3', h4'⟩ := hc
        have h1 : line0 ≤ l := h1'
        have h2 : l < line0 + min c.tileLines (c.lines - line0) := h2'
        have h3 : sample0 ≤ s := h3'
        have h4 : s < sample0 + min c.tileSamples (c.samples - sample0) := h4'
        have hll : l - line0 < c.tileLines := by
          have hm : min c.tileLines (c.lines - line0) ≤ c.tileLines := Nat.min_le_left _ _
          omega
        have hss : s - sample0 < c.tileSamples := by
          have hm : min c.tileSamples (c.samples - sample0) ≤ c.tileSamples :=
            Nat.min_le_left _ _
          omega
        rw [getD_take_drop stream pos _ _ (index2_lt hll hss), Nat.zero_mul, Nat.add_zero]
      | succ k2 =>
        rw [List.getElem?_cons_succ] at hk
        have huniq2 : ∀ j o2, rest[j]? = some o2 → covers c o2 b l s → j = k2 := by
          intro j o2 hj hcv
          have h1 := huniq (j + 1) o2 (by rw [List.getElem?_cons_succ]; exact hj) hcv
          omega
        rw [hcov b l s k2 band line sample hk hc huniq2]
        have harr : pos + c.tileLines * c.tileSamples + k2 * (c.tileLines * c.tileSamples)
            = pos + (k2 + 1) * (c.tileLines * c.tileSamples) := by
          rw [Nat.succ_mul, Nat.add_assoc, Nat.add_comm (c.tileLines * c.tileSamples)
            (k2 * (c.tileLines * c.tileSamples))]
        rw [harr]

/-- C1: tiled decode.  For every tiled cube with enough stream data, a
full `tile_lines*tile_samples` run is read for every tile, edge tiles
included (the final cursor advances by exactly `numTiles * tileSize`),
tiles are traversed band outermost, then tile row, then tile column
innermost (the flat tile position of the tile holding `(b, l, s)` is
`tileIdx`), and only the top-left `min(tile_lines, lines - line)` by
`min(tile_samples, samples - sample)` sub-rectangle of each read tile is
copied into the output: pixel `(b, l, s)` holds the element at offset
`(l mod tile_lines) * tile_samples + (s mod tile_samples)` within its
tile's full run, so the padding rows/columns of edge tiles are read but
discarded. -/
theorem C1_tiled_decode {α : Type} [Inhabited α] (c : CoreLabel) (stream : List α)
    (hfmt : c.format = "Tile")
    (hdt : ∃ d2, dtype c = Except.ok d2)
    (htl : 0 < c.tileLines) (hts : 0 < c.tileSamples)
    (hlen : c.startByte - 1
        + c.bands * (nTileRows c * nTileCols c) * (c.tileLines * c.tileSamples)
      ≤ stream.length)
    (b l s : Nat) (hb : b < c.bands) (hl : l < c.lines) (hs : s < c.samples) :
    ∃ d, _parse_data c stream
        = Except.ok (d, (c.startByte - 1)
            + c.bands * (nTileRows c * nTileCols c) * (c.tileLines * c.tileSamples))
      ∧ d b l s = stream.getD
          ((c.startByte - 1) + tileIdx c b l s * (c.tileLines * c.tileSamples)
            + (l % c.tileLines * c.tileSamples + s % c.tileSamples)) default := by
  obtain ⟨d2, hd2⟩ := hdt
  have hlen2 : start_byte c + (tileOrigins c).length * (c.tileLines * c.tileSamples)
      ≤ stream.length := by
    rw [tileOrigins_length]
    exact hlen
  obtain ⟨dfin, hfin, hunt, hcov⟩ :=
    parseTilesLoop_spec c stream (tileOrigins c) (fun _ _ _ => default) (start_byte c) hlen2
  have hpt : parse_tile_data c stream (start_byte c)
      = parseTilesLoop c stream (tileOrigins c) ((fun _ _ _ => default), start_byte c) := by
    unfold parse_tile_data
    rw [hd2]
  have hparse : _parse_data c stream = Except.ok (dfin, (c.startByte - 1)
      + c.bands * (nTileRows c * nTileCols c) * (c.tileLines * c.tileSamples)) := by
    unfold _parse_data
    rw [if_neg (by rw [hfmt]; decide), if_pos hfmt, hpt, hfin, tileOrigins_length]
    rfl
  refine ⟨dfin, hparse, ?_⟩
  have hrlt : l / c.tileLines < nTileRows c := div_lt_ceil htl hl
  have hclt : s / c.tileSamples < nTileCols c := div_lt_ceil hts hs
  have hA : l / c.tileLines * nTileCols c + s / c.tileSamples < nTileRows c * nTileCols c :=
    index2_lt hrlt hclt
  have hK : tileIdx c b l s < c.bands * (nTileRows c * nTileCols c) := index2_lt hb hA
  have hget : (tileOrigins c)[tileIdx c b l s]?
      = some (b, l / c.tileLines * c.tileLines, s / c.tileSamples * c.tileSamples) := by
    rw [tileOrigins_getElem c _ hK, originOfIdx_tileIdx c b l s htl hts hl hs]
  have hcovK : covers c (b, l / c.tileLines * c.tileLines,
      s / c.tileSamples * c.tileSamples) b l s := covers_origin c b l s htl hts hl hs
  have huniqK : ∀ j o2, (tileOrigins c)[j]? = some o2 → covers c o2 b l s →
      j = tileIdx c b l s := by
    intro j o2 hj hcv
    obtain ⟨hjlt, ho2⟩ := tileOrigins_getElem_inv c j o2 hj
    rw [ho2] at hcv
    exact covers_unique c b l s j htl hts hl hs hjlt hcv
  have hval := hcov b l s (tileIdx c b l s) b (l / c.tileLines * c.tileLines)
    (s / c.tileSamples * c.tileSamples) hget hcovK huniqK
  rw [hval]
  have hlm : l - l / c.tileLines * c.tileLines = l % c.tileLines :=
    Nat.sub_eq_of_eq_add (by rw [Nat.add_comm]; exact (Nat.div_add_mod' l c.tileLines).symm)
  have hsm : s - s / c.tileSamples * c.tileSamples = s % c.tileSamples :=
    Nat.sub_eq_of_eq_add (by rw [Nat.add_comm]; exact (Nat.div_add_mod' s c.tileSamples).symm)
  rw [hlm, hsm]
  rfl

/-- C1 witness: a 1-band 3x3 cube with 2x2 tiles over the stream
`0..15`: all four tiles (the edge tiles included) are read in full, the
cursor ends at 16, and pixel (0, 2, 1) comes from the third tile's run
at offset 1, i.e. stream element 9. -/
theorem C1_tiled_decode_witness :
    ∃ d : Nat → Nat → Nat → Int,
      _parse_data (⟨1, 3, 3, "Tile", "SignedWord", "Msb", 2, 2, 1, 0, 1⟩ : CoreLabel)
          ([0, 1, 2, 3, 4, 5, 6, 7, 8, 9, 10, 11, 12, 13, 14, 15] : List Int)
        = Except.ok (d, 16)
      ∧ d 0 2 1 = 9 := by
  obtain ⟨d, hok, hval⟩ := C1_tiled_decode
    (⟨1, 3, 3, "Tile", "SignedWord", "Msb", 2, 2, 1, 0, 1⟩ : CoreLabel)
    ([0, 1, 2, 3, 4, 5, 6, 7, 8, 9, 10, 11, 12, 13, 14, 15] : List Int)
    rfl ⟨("int16", ">"), rfl⟩ (by decide) (by decide) (by decide) 0 2 1
    (by decide) (by decide) (by decide)
  refine ⟨d, hok, ?_⟩
  rw [hval]
  decide
